import Mathlib

/-!
Verification of the ReorderingSurvey2025 metrics-aggregation engine.

The Python scripts under `scripts/` are shallowly embedded here:

* a sparse matrix is its shape together with the list of stored 0-based
  coordinates (`SparseMatrix`), matching what `scipy.io.mmread(...).tocoo()`
  and `graphblas.Matrix.to_coo()` expose to the metric functions;
* a one-row results CSV is an ordered association list from column names to
  cell values (`Row`), matching a single-row `pandas.DataFrame`;
* each script's decision logic (`compute_bandwidth`, `block_metrics`,
  `update_csv.py`, `update_csv_multiply.py`, `csv_helper.main`,
  `cusparse_operations.main`, `csrcusparse_multiply.main`,
  `smat.run_smat_multiplication`) becomes a pure Lean function over these
  types, with the values the real code obtains from the filesystem or the
  GPU probe passed in as explicit arguments.

Python floats are modelled by `ℚ`; every concrete value appearing in the
claims (1.0, 0.5, 0.25, ...) is a dyadic rational represented exactly by
both.  Strings that only ever get compared are `String`; the parameter-set
canonicalizer, whose claims need character-level reasoning, works on
`List Char`.
-/

namespace ReorderingSurvey

/-- A sparse matrix as the metric scripts see it: the shape and the list of
stored nonzero coordinates, 0-based.  `coords.length` plays the role of
`coo.nnz` / `mat.nvals`. -/
structure SparseMatrix where
  nrows : ℕ
  ncols : ℕ
  coords : List (ℕ × ℕ)
  deriving Repr, DecidableEq

namespace SparseMatrix

/-- `nnz` of the matrix: the number of stored coordinates. -/
def nnz (m : SparseMatrix) : ℕ := m.coords.length

end SparseMatrix

/-- Python's `max` over a nonempty list (`numpy.ndarray.max` agrees): the
left fold of binary `max` seeded with the first element.  Returns `0` on the
empty list, where the Python call would raise; the bandwidth code never
reaches that case. -/
def pythonMax (l : List ℤ) : ℤ :=
  match l with
  | [] => 0
  | x :: xs => xs.foldl max x

/-- The list of `|row - col|` values the bandwidth code builds
(`np.abs(rows - cols)` after the `astype(np.int64)` casts). -/
def absDiffs (coords : List (ℕ × ℕ)) : List ℤ :=
  coords.map (fun p => |(p.1 : ℤ) - (p.2 : ℤ)|)

/-- `compute_bandwidth` from `scripts/csv_helper.py`, SciPy arm (identical
code is in `csv_helper_scipy.py`): `0` when `coo.nnz == 0`, otherwise
`int(np.abs(rows - cols).max())`. -/
def compute_bandwidth (m : SparseMatrix) : ℤ :=
  if m.nnz = 0 then 0
  else pythonMax (absDiffs m.coords)

/-- `compute_bandwidth_graphblas` from `scripts/csv_helper_graphblas.py`:
`0` when `mat.nvals == 0` or the extracted coordinate arrays are empty,
otherwise `int(np.abs(rows - cols).max())` over the `to_coo()` output. -/
def compute_bandwidth_graphblas (m : SparseMatrix) : ℤ :=
  if m.nnz = 0 then 0
  else if m.coords.length = 0 then 0
  else pythonMax (absDiffs m.coords)

/-- The number of distinct `(row // block, col // block)` tile coordinates,
`np.unique(pairs, axis=0).shape[0]` in both block-metric implementations. -/
def uniqueTiles (coords : List (ℕ × ℕ)) (block : ℕ) : ℕ :=
  ((coords.map (fun p => (p.1 / block, p.2 / block))).dedup).length

/-- `block_metrics` from `scripts/csv_helper.py` (and verbatim in
`csv_helper_graphblas.py` as `block_metrics_graphblas`): the occupancy
density, `unique / total` where `total` is the tile-grid size
`((nrows + block - 1) // block) * ((ncols + block - 1) // block)`,
with `0.0` for an empty matrix or an empty grid. -/
def block_metrics (m : SparseMatrix) (block : ℕ) : ℚ :=
  if m.nnz = 0 then 0
  else if ((m.nrows + block - 1) / block) * ((m.ncols + block - 1) / block) = 0 then 0
  else (uniqueTiles m.coords block : ℚ) /
    ((((m.nrows + block - 1) / block) * ((m.ncols + block - 1) / block) : ℕ) : ℚ)

/-- `block_metrics` from `scripts/csv_helper_scipy.py`: the fill density,
`nnz / (num_nonzero_blocks * block²)`, with `0.0` when the denominator is
not positive. -/
def block_metrics_fill (m : SparseMatrix) (block : ℕ) : ℚ :=
  if m.nnz = 0 then 0
  else if 0 < uniqueTiles m.coords block * (block * block) then
    (m.nnz : ℚ) / ((uniqueTiles m.coords block * (block * block) : ℕ) : ℚ)
  else 0

/-- The 4×4 identity matrix of the spec's block-density reference table. -/
def identity4 : SparseMatrix :=
  ⟨4, 4, [(0, 0), (1, 1), (2, 2), (3, 3)]⟩

/-- The matrix of the spec's bandwidth example: nonzeros at 1-based
coordinates (1,1),(1,2),(2,2),(3,3),(4,3),(4,4), stored 0-based. -/
def bandwidthExample : SparseMatrix :=
  ⟨4, 4, [(0, 0), (0, 1), (1, 1), (2, 2), (3, 2), (3, 3)]⟩

/-- `block_metrics_graphblas` from `scripts/csv_helper_graphblas.py`: the
same occupancy-density formula as `csv_helper.block_metrics`, behind the
GraphBLAS guards (`mat.nvals == 0`, then `len(rows) == 0`). -/
def block_metrics_graphblas (m : SparseMatrix) (block : ℕ) : ℚ :=
  if m.nnz = 0 then 0
  else if m.coords.length = 0 then 0
  else if ((m.nrows + block - 1) / block) * ((m.ncols + block - 1) / block) = 0 then 0
  else (uniqueTiles m.coords block : ℚ) /
    ((((m.nrows + block - 1) / block) * ((m.ncols + block - 1) / block) : ℕ) : ℚ)

/-! ## The one-row results CSV -/

/-- A cell of the results CSV, as a single-row `pandas.DataFrame` holds it:
missing/NaN, a number, a plain string, or the JSON-encoded string
`json.dumps({4: d4, 8: d8, ...})` that the metrics scripts store in
`block_density` (kept structured here as its list of key/value pairs). -/
inductive CsvValue where
  | null
  | num (q : ℚ)
  | str (s : String)
  | json (entries : List (ℕ × ℚ))
  deriving Repr, DecidableEq

/-- A one-row results CSV: the ordered list of (column name, cell value). -/
abbrev Row : Type := List (String × CsvValue)

namespace Row

/-- Whether the data frame has a column named `k` (`k in df.columns`). -/
def hasCol : Row → String → Bool
  | [], _ => false
  | p :: t, k => if p.1 = k then true else hasCol t k

/-- The cell of column `k` (first occurrence, as pandas labels select). -/
def getCol : Row → String → Option CsvValue
  | [], _ => none
  | p :: t, k => if p.1 = k then some p.2 else getCol t k

/-- `df[k] = v` on a one-row frame: overwrite the column in place when it
exists, append it as the last column otherwise. -/
def setCol (row : Row) (k : String) (v : CsvValue) : Row :=
  if hasCol row k then
    List.map (fun p => if p.1 = k then (k, v) else p) row
  else row ++ [(k, v)]

end Row

/-! ## scripts/update_csv.py and scripts/update_csv_multiply.py -/

/-- `scripts/update_csv.py`: read the one-row CSV, assign
`mult_type, mult_param_set, mult_time_ms, exit_code, timestamp`, write it
back. -/
def update_csv (row : Row) (impl param_set : String) (time_ms : ℚ)
    (status : ℤ) (timestamp : String) : Row :=
  Row.setCol (Row.setCol (Row.setCol (Row.setCol (Row.setCol row
    "mult_type" (.str impl))
    "mult_param_set" (.str param_set))
    "mult_time_ms" (.num time_ms))
    "exit_code" (.num (status : ℚ)))
    "timestamp" (.str timestamp)

/-- The `mult_time_ms` cell chosen by `scripts/update_csv_multiply.py`'s
`main`: when the implementation is `cucsrspmm` and a sidecar results file
exists (`resultsMetrics = some metrics`, the dict built by
`parse_cusparse_results`), the `avg_time_ms` entry is used when present and
the wall-clock `time_ms` argument otherwise; every other implementation gets
the wall-clock `time_ms`. -/
def multTimeCell (impl : String) (resultsMetrics : Option (List (String × CsvValue)))
    (time_ms : ℚ) : CsvValue :=
  if impl == "cucsrspmm" then
    match resultsMetrics with
    | some metrics =>
      match List.lookup "avg_time_ms" metrics with
      | some v => v
      | none => .num time_ms
    | none => .num time_ms
  else .num time_ms

/-- The timing selected in `scripts/smat.py`'s `run_smat_multiplication`
after a successful binary invocation: the value parsed from the binary's
stdout when the parse loop found one, the wall-clock
`(end_time - start_time) * 1000` otherwise. -/
def smatTimingMs (parsedTiming : Option ℚ) (wallClockMs : ℚ) : ℚ :=
  match parsedTiming with
  | some t => t
  | none => wallClockMs

/-! ## scripts/csv_helper.py main and scripts/csv_helper_graphblas.py main -/

/-- The `block_sizes` tuple shared by all three metrics scripts. -/
def blockSizes : List ℕ := [4, 8, 16, 32, 64]

/-- The dict `{b: block_metrics(A, b) for b in block_sizes}` that
`csv_helper.main` JSON-encodes into the `block_density` cell. -/
def densitiesObject (m : SparseMatrix) : List (ℕ × ℚ) :=
  blockSizes.map (fun b => (b, block_metrics m b))

/-- The dict of densities computed by `csv_helper_graphblas.main`. -/
def densitiesObjectGraphblas (m : SparseMatrix) : List (ℕ × ℚ) :=
  blockSizes.map (fun b => (b, block_metrics_graphblas m b))

/-- The row transformation of `scripts/csv_helper.py`'s `main`: add the
`bandwidth` (as NaN) and `block_density` (as `""`) columns when missing,
then store `compute_bandwidth` in `bandwidth` and the JSON-encoded density
dict in `block_density`.  (The intermediate `astype(str)` on the
`block_density` column only retypes a cell that is immediately
overwritten.) -/
def csvHelperMain (m : SparseMatrix) (row : Row) : Row :=
  Row.setCol
    (Row.setCol
      (if Row.hasCol (if Row.hasCol row "bandwidth" then row
                      else Row.setCol row "bandwidth" .null) "block_density" then
        (if Row.hasCol row "bandwidth" then row else Row.setCol row "bandwidth" .null)
       else Row.setCol (if Row.hasCol row "bandwidth" then row
                        else Row.setCol row "bandwidth" .null) "block_density" (.str ""))
      "bandwidth" (.num ((compute_bandwidth m : ℤ) : ℚ)))
    "block_density" (.json (densitiesObject m))

/-- The row transformation of `scripts/csv_helper_graphblas.py`'s `main`:
same merge as `csvHelperMain` with the GraphBLAS metric functions. -/
def csvHelperGraphblasMain (m : SparseMatrix) (row : Row) : Row :=
  Row.setCol
    (Row.setCol
      (if Row.hasCol (if Row.hasCol row "bandwidth" then row
                      else Row.setCol row "bandwidth" .null) "block_density" then
        (if Row.hasCol row "bandwidth" then row else Row.setCol row "bandwidth" .null)
       else Row.setCol (if Row.hasCol row "bandwidth" then row
                        else Row.setCol row "bandwidth" .null) "block_density" (.str ""))
      "bandwidth" (.num ((compute_bandwidth_graphblas m : ℤ) : ℚ)))
    "block_density" (.json (densitiesObjectGraphblas m))

/-! ## scripts/cusparse_operations.py and scripts/csrcusparse_multiply.py -/

/-- The last line these kernels print on stdout: the literal marker
`TIMING_MS:0`, or `TIMING_MS:<t>` with the measured timing `t`. -/
inductive TimingMarker where
  | zero
  | reported (t : ℚ)
  deriving Repr, DecidableEq

/-- The GPU-environment probe result of `detect_gpu_environment` (shared by
`cusparse_operations.py` and `csrcusparse_multiply.py`). -/
structure GpuInfo where
  cuda_available : Bool
  cusparse_available : Bool
  nvidia_smi : Bool
  cupy_available : Bool
  deriving Repr, DecidableEq

/-- `scripts/cusparse_operations.py`'s `main` as a function of what the
environment hands it: whether the matrix loaded, the probe result, and the
`(timing_ms, success)` pair the selected `perform_*` operation would return.
Yields the process exit code and the stdout timing marker.  The script has
no CPU path: when `cusparse_available` is false it returns before any
operation runs, so the outcome cannot depend on `opTiming`/`opSuccess`. -/
def cusparseOperationsMain (matrixLoaded : Bool) (gpu : GpuInfo)
    (opTiming : Option ℚ) (opSuccess : Bool) : ℕ × TimingMarker :=
  if matrixLoaded then
    if gpu.cusparse_available then
      match opSuccess, opTiming with
      | true, some t => (0, .reported t)
      | _, _ => (1, .zero)
    else (1, .zero)
  else (1, .zero)

/-- `scripts/csrcusparse_multiply.py`'s `main`: try the GPU path when not
forced to CPU and `cusparse_available` holds, then fall back to the CPU
implementation whenever the GPU attempt did not succeed.  `gpuResult` and
`cpuResult` are the `(timing_ms, success)` pairs of `perform_csr_multiply_gpu`
and `perform_csr_multiply_cpu`. -/
def csrcusparseMain (matrixLoaded : Bool) (forceCpu : Bool) (gpu : GpuInfo)
    (gpuResult : Option ℚ × Bool) (cpuResult : Option ℚ × Bool) :
    ℕ × TimingMarker :=
  if matrixLoaded then
    let afterGpu : Option ℚ × Bool :=
      if !forceCpu && gpu.cusparse_available then gpuResult else (none, false)
    let final : Option ℚ × Bool := if afterGpu.2 then afterGpu else cpuResult
    match final.2, final.1 with
    | true, some t => (0, .reported t)
    | _, _ => (1, .zero)
  else (1, .zero)

/-! ## The parameter-set canonicalizer

The canonicalizer lives in the shell wrapper scripts of the pipeline, which
are not part of this source tree; it is modelled from the spec below. -/

/-- Modelled from the spec: the per-character `=` → `-` substitution used to
build a path token from a `key=value` pair (the canonicalizer's shell code
is not in this tree). -/
def replChar (c : Char) : Char := if c = '=' then '-' else c

/-- Modelled from the spec: `sep.join(parts)` on strings viewed as char
lists (the canonicalizer's shell code is not in this tree). -/
def joinSep (sep : Char) : List (List Char) → List Char
  | [] => []
  | [x] => x
  | x :: y :: t => x ++ sep :: joinSep sep (y :: t)

/-- Modelled from the spec: `canonicalize(params) -> (raw, token)` of the
parameter-set canonicalizer, whose shell implementation is not in this
tree.  `raw` joins the pairs with `;` (empty input gives the empty string);
`token` is the literal `default` for the empty list, and otherwise the
pairs, each with `=` replaced by `-`, joined with `_`. -/
def canonicalize (params : List (List Char)) : List Char × List Char :=
  (joinSep ';' params,
   if params = [] then "default".toList
   else joinSep '_' (params.map (List.map replChar)))

end ReorderingSurvey
namespace ReorderingSurvey
namespace Row

theorem getCol_map_replace (row : Row) (k : String) (v : CsvValue) :
    getCol (List.map (fun p => if p.1 = k then (k, v) else p) row) k
      = if hasCol row k then some v else none := by
  induction row with
  | nil => rfl
  | cons a t ih =>
    by_cases h : a.1 = k
    · simp [getCol, hasCol, h]
    · simp [getCol, hasCol, h, ih]

theorem getCol_map_replace_ne (row : Row) (k k' : String) (v : CsvValue)
    (hne : k' ≠ k) :
    getCol (List.map (fun p => if p.1 = k then (k, v) else p) row) k'
      = getCol row k' := by
  induction row with
  | nil => rfl
  | cons a t ih =>
    simp only [List.map_cons]
    by_cases h : a.1 = k
    · have hk : ¬ k = k' := fun hh => hne hh.symm
      have ha : ¬ a.1 = k' := by rw [h]; exact hk
      rw [if_pos h]
      simp only [getCol]
      rw [if_neg hk, if_neg ha, ih]
    · rw [if_neg h]
      by_cases h2 : a.1 = k'
      · simp only [getCol]; rw [if_pos h2, if_pos h2]
      · simp only [getCol]; rw [if_neg h2, if_neg h2]; exact ih

theorem getCol_append_single (row : Row) (k : String) (v : CsvValue)
    (h : hasCol row k = false) :
    getCol (row ++ [(k, v)]) k = some v := by
  induction row with
  | nil => simp [getCol]
  | cons a t ih =>
    simp only [hasCol] at h
    by_cases h1 : a.1 = k
    · rw [if_pos h1] at h; cases h
    · rw [if_neg h1] at h
      simp only [List.cons_append, getCol]
      rw [if_neg h1]
      exact ih h

theorem getCol_append_single_ne (row : Row) (k k' : String) (v : CsvValue)
    (hne : k' ≠ k) :
    getCol (row ++ [(k, v)]) k' = getCol row k' := by
  induction row with
  | nil => simp [getCol, Ne.symm hne]
  | cons a t ih =>
    simp only [List.cons_append, getCol]
    by_cases h1 : a.1 = k'
    · rw [if_pos h1, if_pos h1]
    · rw [if_neg h1, if_neg h1]
      exact ih

theorem getCol_setCol_self (row : Row) (k : String) (v : CsvValue) :
    getCol (setCol row k v) k = some v := by
  unfold setCol
  by_cases h : hasCol row k
  · rw [if_pos h, getCol_map_replace, if_pos h]
  · rw [if_neg h, getCol_append_single row k v (by simpa using h)]

theorem getCol_setCol_ne (row : Row) (k k' : String) (v : CsvValue)
    (hne : k' ≠ k) :
    getCol (setCol row k v) k' = getCol row k' := by
  unfold setCol
  by_cases h : hasCol row k
  · rw [if_pos h, getCol_map_replace_ne row k k' v hne]
  · rw [if_neg h, getCol_append_single_ne row k k' v hne]

theorem hasCol_map_replace (row : Row) (k k' : String) (v : CsvValue) :
    hasCol (List.map (fun p => if p.1 = k then (k, v) else p) row) k'
      = hasCol row k' := by
  induction row with
  | nil => rfl
  | cons a t ih =>
    simp only [List.map_cons]
    by_cases h : a.1 = k
    · rw [if_pos h]
      simp only [hasCol]
      rw [h]
      by_cases h2 : k = k'
      · rw [if_pos h2, if_pos h2]
      · rw [if_neg h2, if_neg h2]; exact ih
    · rw [if_neg h]
      simp only [hasCol]
      by_cases h2 : a.1 = k'
      · rw [if_pos h2, if_pos h2]
      · rw [if_neg h2, if_neg h2]; exact ih

theorem hasCol_append_single (row : Row) (k k' : String) (v : CsvValue) :
    hasCol (row ++ [(k, v)]) k' = (hasCol row k' || decide (k = k')) := by
  induction row with
  | nil => simp [hasCol]
  | cons a t ih =>
    simp only [List.cons_append, hasCol]
    by_cases h1 : a.1 = k'
    · rw [if_pos h1, if_pos h1]; simp
    · rw [if_neg h1, if_neg h1]
      exact ih

theorem hasCol_setCol_self (row : Row) (k : String) (v : CsvValue) :
    hasCol (setCol row k v) k = true := by
  unfold setCol
  by_cases h : hasCol row k
  · rw [if_pos h, hasCol_map_replace]; exact h
  · rw [if_neg h, hasCol_append_single]; simp

theorem hasCol_setCol_ne (row : Row) (k k' : String) (v : CsvValue)
    (hne : k ≠ k') :
    hasCol (setCol row k v) k' = hasCol row k' := by
  unfold setCol
  by_cases h : hasCol row k
  · rw [if_pos h, hasCol_map_replace]
  · rw [if_neg h, hasCol_append_single]; simp [hne]

theorem setCol_keys_val (row : Row) (k : String) (v : CsvValue) :
    ∀ p ∈ setCol row k v, p.1 = k → p.2 = v := by
  intro p hp hk
  unfold setCol at hp
  by_cases h : hasCol row k
  · rw [if_pos h] at hp
    rcases List.mem_map.mp hp with ⟨q, _, rfl⟩
    by_cases hq : q.1 = k
    · rw [if_pos hq]
    · rw [if_neg hq] at hk ⊢; exact absurd hk hq
  · rw [if_neg h] at hp
    rcases List.mem_append.mp hp with h1 | h1
    · exfalso
      have : hasCol row k = true := by
        clear hp
        induction row with
        | nil => cases h1
        | cons a t ih =>
          rcases List.mem_cons.mp h1 with rfl | hmem
          · simp [hasCol, hk]
          · simp only [hasCol]
            by_cases h2 : a.1 = k
            · rw [if_pos h2]
            · rw [if_neg h2]
              exact ih (by simpa [hasCol, h2] using h) hmem
      exact h this
    · rcases List.mem_singleton.mp h1 with rfl
      rfl

theorem setCol_keys_val_other (row : Row) (k k' : String) (v v' : CsvValue)
    (hne : k ≠ k') (h : ∀ p ∈ row, p.1 = k → p.2 = v) :
    ∀ p ∈ setCol row k' v', p.1 = k → p.2 = v := by
  intro p hp hk
  unfold setCol at hp
  by_cases hc : hasCol row k'
  · rw [if_pos hc] at hp
    rcases List.mem_map.mp hp with ⟨q, hq, rfl⟩
    by_cases hq1 : q.1 = k'
    · rw [if_pos hq1] at hk ⊢
      exact absurd hk (Ne.symm hne)
    · rw [if_neg hq1] at hk ⊢
      exact h q hq hk
  · rw [if_neg hc] at hp
    rcases List.mem_append.mp hp with h1 | h1
    · exact h p h1 hk
    · rcases List.mem_singleton.mp h1 with rfl
      exact absurd hk (Ne.symm hne)

theorem map_replace_eq_self (row : Row) (k : String) (v : CsvValue)
    (h : ∀ p ∈ row, p.1 = k → p.2 = v) :
    List.map (fun p => if p.1 = k then (k, v) else p) row = row := by
  induction row with
  | nil => rfl
  | cons a t ih =>
    simp only [List.map_cons]
    by_cases h1 : a.1 = k
    · have h2 : a.2 = v := h a (List.mem_cons_self a t) h1
      rw [if_pos h1]
      rw [ih (fun p hp hk => h p (List.mem_cons_of_mem a hp) hk)]
      rw [← h1, ← h2]
    · rw [if_neg h1, ih (fun p hp hk => h p (List.mem_cons_of_mem a hp) hk)]

theorem setCol_eq_self (row : Row) (k : String) (v : CsvValue)
    (hhas : hasCol row k = true) (h : ∀ p ∈ row, p.1 = k → p.2 = v) :
    setCol row k v = row := by
  unfold setCol
  rw [if_pos hhas, map_replace_eq_self row k v h]

end Row
end ReorderingSurvey
namespace ReorderingSurvey

theorem init_le_foldl_max : ∀ (l : List ℤ) (b : ℤ), b ≤ l.foldl max b := by
  intro l
  induction l with
  | nil => intro b; exact le_refl b
  | cons x xs ih => intro b; exact le_trans (le_max_left b x) (ih (max b x))

theorem mem_le_foldl_max : ∀ (l : List ℤ) (b x : ℤ), x ∈ l → x ≤ l.foldl max b := by
  intro l
  induction l with
  | nil => intro b x hx; cases hx
  | cons a as ih =>
    intro b x hx
    rcases List.mem_cons.mp hx with h | h
    · subst h; exact le_trans (le_max_right b x) (init_le_foldl_max as _)
    · exact ih _ x h

theorem foldl_max_eq_init_or_mem :
    ∀ (l : List ℤ) (b : ℤ), l.foldl max b = b ∨ l.foldl max b ∈ l := by
  intro l
  induction l with
  | nil => intro b; left; rfl
  | cons a as ih =>
    intro b
    rw [List.foldl_cons]
    rcases ih (max b a) with h | h
    · rcases max_choice b a with hm | hm
      · left; rw [h, hm]
      · right; rw [h, hm]; exact List.mem_cons_self a as
    · right; exact List.mem_cons_of_mem a h

theorem foldl_max_perm {l1 l2 : List ℤ} (h : l1.Perm l2) :
    ∀ b : ℤ, l1.foldl max b = l2.foldl max b := by
  induction h with
  | nil => intro b; rfl
  | cons x _ ih => intro b; rw [List.foldl_cons, List.foldl_cons]; exact ih _
  | swap x y t =>
    intro b
    rw [List.foldl_cons, List.foldl_cons, List.foldl_cons, List.foldl_cons]
    congr 1
    rw [max_assoc, max_comm y x, ← max_assoc]
  | trans _ _ ih1 ih2 => intro b; rw [ih1, ih2]

theorem pythonMax_eq_foldl_zero {l : List ℤ} (h : ∀ x ∈ l, (0 : ℤ) ≤ x) :
    pythonMax l = l.foldl max 0 := by
  cases l with
  | nil => rfl
  | cons x xs =>
    show xs.foldl max x = (x :: xs).foldl max 0
    rw [List.foldl_cons, max_eq_right (h x (List.mem_cons_self x xs))]

theorem pythonMax_mem {l : List ℤ} (h : l ≠ []) : pythonMax l ∈ l := by
  cases l with
  | nil => exact absurd rfl h
  | cons x xs =>
    show xs.foldl max x ∈ x :: xs
    rcases foldl_max_eq_init_or_mem xs x with h' | h'
    · rw [h']; exact List.mem_cons_self x xs
    · exact List.mem_cons_of_mem x h'

theorem absDiffs_nonneg {c : List (ℕ × ℕ)} : ∀ x ∈ absDiffs c, (0 : ℤ) ≤ x := by
  intro x hx
  rcases List.mem_map.mp hx with ⟨p, _, rfl⟩
  exact abs_nonneg _

theorem compute_bandwidth_eq_foldl (m : SparseMatrix) :
    compute_bandwidth m = (absDiffs m.coords).foldl max 0 := by
  unfold compute_bandwidth
  by_cases h : m.nnz = 0
  · rw [if_pos h]
    have : m.coords = [] := List.length_eq_zero.mp h
    rw [this]; rfl
  · rw [if_neg h]
    exact pythonMax_eq_foldl_zero absDiffs_nonneg

theorem compute_bandwidth_graphblas_eq_foldl (m : SparseMatrix) :
    compute_bandwidth_graphblas m = (absDiffs m.coords).foldl max 0 := by
  unfold compute_bandwidth_graphblas
  simp only [SparseMatrix.nnz]
  by_cases h : m.coords.length = 0
  · rw [if_pos h]
    have : m.coords = [] := List.length_eq_zero.mp h
    rw [this]; rfl
  · rw [if_neg h, if_neg h]
    exact pythonMax_eq_foldl_zero absDiffs_nonneg

/-- C1 counterexample: on the 4×4 identity matrix, the occupancy-density
formula implemented by `block_metrics` in `csv_helper.py` does not return
1.0 at block size 1 (it returns 0.25 there). -/
theorem block_density_occupancy_identity4_cex : block_metrics identity4 1 ≠ 1 := by
  have h1 : uniqueTiles identity4.coords 1 = 4 := by decide
  have hn : identity4.nnz = 4 := by decide
  have ht : ((identity4.nrows + 1 - 1) / 1) * ((identity4.ncols + 1 - 1) / 1) = 16 := by decide
  rw [block_metrics, h1, hn, ht]
  norm_num

/-- C1 (amended): for the 4×4 identity matrix, the occupancy-density formula
of `csv_helper.block_metrics` returns 0.25, 0.5 and 1.0 at block sizes 1, 2
and 4; the reference values 1.0, 0.5, 0.25 are those of the fill-density
formula implemented by `block_metrics` in `csv_helper_scipy.py`. -/
theorem block_density_identity4_values :
    block_metrics identity4 1 = 1/4 ∧ block_metrics identity4 2 = 1/2
    ∧ block_metrics identity4 4 = 1
    ∧ block_metrics_fill identity4 1 = 1 ∧ block_metrics_fill identity4 2 = 1/2
    ∧ block_metrics_fill identity4 4 = 1/4 := by
  have hn : identity4.nnz = 4 := by decide
  have h1 : uniqueTiles identity4.coords 1 = 4 := by decide
  have h2 : uniqueTiles identity4.coords 2 = 2 := by decide
  have h4 : uniqueTiles identity4.coords 4 = 1 := by decide
  have ht1 : ((identity4.nrows + 1 - 1) / 1) * ((identity4.ncols + 1 - 1) / 1) = 16 := by decide
  have ht2 : ((identity4.nrows + 2 - 1) / 2) * ((identity4.ncols + 2 - 1) / 2) = 4 := by decide
  have ht4 : ((identity4.nrows + 4 - 1) / 4) * ((identity4.ncols + 4 - 1) / 4) = 1 := by decide
  refine ⟨?_, ?_, ?_, ?_, ?_, ?_⟩
  · rw [block_metrics, h1, hn, ht1]; norm_num
  · rw [block_metrics, h2, hn, ht2]; norm_num
  · rw [block_metrics, h4, hn, ht4]; norm_num
  · rw [block_metrics_fill, h1, hn]; norm_num
  · rw [block_metrics_fill, h2, hn]; norm_num
  · rw [block_metrics_fill, h4, hn]; norm_num

/-- C3: for the same logical coordinate set (the coordinate lists agree up
to order, and the shape agrees), the GraphBLAS-branch and SciPy-branch
bandwidth implementations return the identical integer. -/
theorem bandwidth_backend_equivalence (nr nc : ℕ) (c1 c2 : List (ℕ × ℕ))
    (h : c1.Perm c2) :
    compute_bandwidth_graphblas ⟨nr, nc, c1⟩ = compute_bandwidth ⟨nr, nc, c2⟩ := by
  rw [compute_bandwidth_graphblas_eq_foldl, compute_bandwidth_eq_foldl]
  exact foldl_max_perm (h.map _) 0

theorem bandwidth_backend_equivalence_witness :
    ([((0 : ℕ), (2 : ℕ)), (1, 1)] : List (ℕ × ℕ)).Perm [(1, 1), (0, 2)]
    ∧ compute_bandwidth_graphblas ⟨3, 3, [(0, 2), (1, 1)]⟩
        = compute_bandwidth ⟨3, 3, [(1, 1), (0, 2)]⟩ :=
  ⟨by decide, bandwidth_backend_equivalence 3 3 _ _ (by decide)⟩

/-- C4: `compute_bandwidth` returns 0 on an empty matrix and otherwise the
maximum of `|row - col|` over the stored 0-based coordinates; on the
spec's example matrix it returns 1. -/
theorem bandwidth_spec :
    (∀ m : SparseMatrix, m.nnz = 0 → compute_bandwidth m = 0)
    ∧ (∀ m : SparseMatrix, ∀ p ∈ m.coords,
        |(p.1 : ℤ) - (p.2 : ℤ)| ≤ compute_bandwidth m)
    ∧ (∀ m : SparseMatrix, m.coords ≠ [] →
        ∃ p ∈ m.coords, compute_bandwidth m = |(p.1 : ℤ) - (p.2 : ℤ)|)
    ∧ compute_bandwidth bandwidthExample = 1 := by
  refine ⟨?_, ?_, ?_, by decide⟩
  · intro m hm
    unfold compute_bandwidth
    rw [if_pos hm]
  · intro m p hp
    rw [compute_bandwidth_eq_foldl]
    exact mem_le_foldl_max _ 0 _ (List.mem_map_of_mem _ hp)
  · intro m hm
    have hne : absDiffs m.coords ≠ [] := by
      simpa [absDiffs] using hm
    have hnnz : ¬ m.nnz = 0 := by
      simpa [SparseMatrix.nnz, List.length_eq_zero] using hm
    have : compute_bandwidth m = pythonMax (absDiffs m.coords) := by
      unfold compute_bandwidth; rw [if_neg hnnz]
    rcases List.mem_map.mp (pythonMax_mem hne) with ⟨p, hp, hv⟩
    refine ⟨p, hp, ?_⟩
    rw [this]
    unfold absDiffs
    exact hv.symm

theorem bandwidth_spec_witness :
    compute_bandwidth ⟨2, 2, []⟩ = 0
    ∧ |(((0 : ℕ) : ℤ)) - (((1 : ℕ)) : ℤ)| ≤ compute_bandwidth bandwidthExample
    ∧ ∃ p ∈ bandwidthExample.coords,
        compute_bandwidth bandwidthExample = |(p.1 : ℤ) - (p.2 : ℤ)| :=
  ⟨bandwidth_spec.1 ⟨2, 2, []⟩ rfl,
   bandwidth_spec.2.1 bandwidthExample (0, 1) (by decide),
   bandwidth_spec.2.2.1 bandwidthExample (by decide)⟩

/-- C5: when the unified cuSPARSE kernel's probe reports no usable
cuSPARSE environment, `cusparse_operations.main` returns exit code 1 with
the `TIMING_MS:0` marker, and its outcome does not depend on any operation
result (no CPU fallback, no positive timing). -/
theorem gpu_only_kernel_fails_fast (matrixLoaded : Bool) (gpu : GpuInfo)
    (hg : gpu.cusparse_available = false) (opTiming : Option ℚ) (opSuccess : Bool) :
    (cusparseOperationsMain matrixLoaded gpu opTiming opSuccess).1 = 1
    ∧ (cusparseOperationsMain matrixLoaded gpu opTiming opSuccess).2 = TimingMarker.zero
    ∧ ∀ (t' : Option ℚ) (s' : Bool),
        cusparseOperationsMain matrixLoaded gpu t' s'
          = cusparseOperationsMain matrixLoaded gpu opTiming opSuccess := by
  cases matrixLoaded <;> simp [cusparseOperationsMain, hg]

theorem gpu_only_kernel_fails_fast_witness :
    (⟨true, false, false, true⟩ : GpuInfo).cusparse_available = false
    ∧ (cusparseOperationsMain true ⟨true, false, false, true⟩ (some 5) true).1 = 1
    ∧ (cusparseOperationsMain true ⟨true, false, false, true⟩ (some 5) true).2
        = TimingMarker.zero :=
  ⟨rfl,
   (gpu_only_kernel_fails_fast true ⟨true, false, false, true⟩ rfl (some 5) true).1,
   (gpu_only_kernel_fails_fast true ⟨true, false, false, true⟩ rfl (some 5) true).2.1⟩

/-- C2: timing precedence of the multiply-stage merge: for the `cucsrspmm`
kernel, `update_csv_multiply.py` writes the sidecar file's `avg_time_ms`
value to `mult_time_ms` when present and the wall-clock argument only
otherwise; `smat.py` uses the timing parsed from the binary's output when
found and the wall-clock measurement around the invocation otherwise. -/
theorem mult_timing_precedence
    (metricsWith metricsWithout : List (String × CsvValue)) (v : CsvValue)
    (h1 : List.lookup "avg_time_ms" metricsWith = some v)
    (h2 : List.lookup "avg_time_ms" metricsWithout = none)
    (wall wallSmat t : ℚ) :
    multTimeCell "cucsrspmm" (some metricsWith) wall = v
    ∧ multTimeCell "cucsrspmm" (some metricsWithout) wall = .num wall
    ∧ multTimeCell "cucsrspmm" none wall = .num wall
    ∧ smatTimingMs (some t) wallSmat = t
    ∧ smatTimingMs none wallSmat = wallSmat := by
  refine ⟨?_, ?_, rfl, rfl, rfl⟩
  · simp [multTimeCell, h1]
  · simp [multTimeCell, h2]

theorem mult_timing_precedence_witness :
    List.lookup "avg_time_ms" [("avg_time_ms", CsvValue.num 7)] = some (CsvValue.num 7)
    ∧ List.lookup "avg_time_ms" [("gflops", CsvValue.num 3)] = none
    ∧ multTimeCell "cucsrspmm" (some [("avg_time_ms", CsvValue.num 7)]) 99 = CsvValue.num 7
    ∧ multTimeCell "cucsrspmm" (some [("gflops", CsvValue.num 3)]) 99 = CsvValue.num 99 := by
  have h := mult_timing_precedence [("avg_time_ms", CsvValue.num 7)]
    [("gflops", CsvValue.num 3)] (CsvValue.num 7) rfl rfl 99 1 2
  exact ⟨rfl, rfl, h.1, h.2.1⟩

end ReorderingSurvey
namespace ReorderingSurvey

theorem update_csv_eq_self (R : Row) (impl ps ts : String) (t : ℚ) (st : ℤ)
    (c1 : Row.hasCol R "mult_type" = true)
    (v1 : ∀ p ∈ R, p.1 = "mult_type" → p.2 = CsvValue.str impl)
    (c2 : Row.hasCol R "mult_param_set" = true)
    (v2 : ∀ p ∈ R, p.1 = "mult_param_set" → p.2 = CsvValue.str ps)
    (c3 : Row.hasCol R "mult_time_ms" = true)
    (v3 : ∀ p ∈ R, p.1 = "mult_time_ms" → p.2 = CsvValue.num t)
    (c4 : Row.hasCol R "exit_code" = true)
    (v4 : ∀ p ∈ R, p.1 = "exit_code" → p.2 = CsvValue.num (st : ℚ))
    (c5 : Row.hasCol R "timestamp" = true)
    (v5 : ∀ p ∈ R, p.1 = "timestamp" → p.2 = CsvValue.str ts) :
    update_csv R impl ps t st ts = R := by
  unfold update_csv
  rw [Row.setCol_eq_self R _ _ c1 v1, Row.setCol_eq_self R _ _ c2 v2,
    Row.setCol_eq_self R _ _ c3 v3, Row.setCol_eq_self R _ _ c4 v4,
    Row.setCol_eq_self R _ _ c5 v5]

theorem csvHelperMain_eq_self (m : SparseMatrix) (R : Row)
    (c1 : Row.hasCol R "bandwidth" = true)
    (v1 : ∀ p ∈ R, p.1 = "bandwidth" → p.2 = CsvValue.num ((compute_bandwidth m : ℤ) : ℚ))
    (c2 : Row.hasCol R "block_density" = true)
    (v2 : ∀ p ∈ R, p.1 = "block_density" → p.2 = CsvValue.json (densitiesObject m)) :
    csvHelperMain m R = R := by
  unfold csvHelperMain
  rw [if_pos c1, if_pos c2, Row.setCol_eq_self R _ _ c1 v1,
    Row.setCol_eq_self R _ _ c2 v2]

/-- C8: re-running the multiply merge of `update_csv.py` with identical
arguments (including the timestamp), or the metrics merge of
`csv_helper.main` with the same matrix, leaves the one-row CSV exactly as
after the first run. -/
theorem merge_idempotent (row : Row) (impl ps ts : String) (t : ℚ) (st : ℤ)
    (m : SparseMatrix) :
    update_csv (update_csv row impl ps t st ts) impl ps t st ts
      = update_csv row impl ps t st ts
    ∧ csvHelperMain m (csvHelperMain m row) = csvHelperMain m row := by
  constructor
  · apply update_csv_eq_self
    · unfold update_csv
      rw [Row.hasCol_setCol_ne _ _ _ _ (by decide),
        Row.hasCol_setCol_ne _ _ _ _ (by decide),
        Row.hasCol_setCol_ne _ _ _ _ (by decide),
        Row.hasCol_setCol_ne _ _ _ _ (by decide)]
      exact Row.hasCol_setCol_self row _ _
    · unfold update_csv
      refine Row.setCol_keys_val_other _ _ _ _ _ (by decide) ?_
      refine Row.setCol_keys_val_other _ _ _ _ _ (by decide) ?_
      refine Row.setCol_keys_val_other _ _ _ _ _ (by decide) ?_
      refine Row.setCol_keys_val_other _ _ _ _ _ (by decide) ?_
      exact Row.setCol_keys_val row _ _
    · unfold update_csv
      rw [Row.hasCol_setCol_ne _ _ _ _ (by decide),
        Row.hasCol_setCol_ne _ _ _ _ (by decide),
        Row.hasCol_setCol_ne _ _ _ _ (by decide)]
      exact Row.hasCol_setCol_self _ _ _
    · unfold update_csv
      refine Row.setCol_keys_val_other _ _ _ _ _ (by decide) ?_
      refine Row.setCol_keys_val_other _ _ _ _ _ (by decide) ?_
      refine Row.setCol_keys_val_other _ _ _ _ _ (by decide) ?_
      exact Row.setCol_keys_val _ _ _
    · unfold update_csv
      rw [Row.hasCol_setCol_ne _ _ _ _ (by decide),
        Row.hasCol_setCol_ne _ _ _ _ (by decide)]
      exact Row.hasCol_setCol_self _ _ _
    · unfold update_csv
      refine Row.setCol_keys_val_other _ _ _ _ _ (by decide) ?_
      refine Row.setCol_keys_val_other _ _ _ _ _ (by decide) ?_
      exact Row.setCol_keys_val _ _ _
    · unfold update_csv
      rw [Row.hasCol_setCol_ne _ _ _ _ (by decide)]
      exact Row.hasCol_setCol_self _ _ _
    · unfold update_csv
      refine Row.setCol_keys_val_other _ _ _ _ _ (by decide) ?_
      exact Row.setCol_keys_val _ _ _
    · unfold update_csv
      exact Row.hasCol_setCol_self _ _ _
    · unfold update_csv
      exact Row.setCol_keys_val _ _ _
  · apply csvHelperMain_eq_self
    · unfold csvHelperMain
      rw [Row.hasCol_setCol_ne _ _ _ _ (by decide)]
      exact Row.hasCol_setCol_self _ _ _
    · unfold csvHelperMain
      refine Row.setCol_keys_val_other _ _ _ _ _ (by decide) ?_
      exact Row.setCol_keys_val _ _ _
    · unfold csvHelperMain
      exact Row.hasCol_setCol_self _ _ _
    · unfold csvHelperMain
      exact Row.setCol_keys_val _ _ _

end ReorderingSurvey
namespace ReorderingSurvey

theorem getCol_csvHelperMain_other (m : SparseMatrix) (row : Row) (k : String)
    (h1 : k ≠ "bandwidth") (h2 : k ≠ "block_density") :
    Row.getCol (csvHelperMain m row) k = Row.getCol row k := by
  unfold csvHelperMain
  rw [Row.getCol_setCol_ne _ _ _ _ h2, Row.getCol_setCol_ne _ _ _ _ h1]
  by_cases hb : Row.hasCol row "bandwidth"
  · rw [if_pos hb]
    by_cases hd : Row.hasCol row "block_density"
    · rw [if_pos hd]
    · rw [if_neg hd, Row.getCol_setCol_ne _ _ _ _ h2]
  · rw [if_neg hb]
    by_cases hd : Row.hasCol (Row.setCol row "bandwidth" CsvValue.null) "block_density"
    · rw [if_pos hd, Row.getCol_setCol_ne _ _ _ _ h1]
    · rw [if_neg hd, Row.getCol_setCol_ne _ _ _ _ h2, Row.getCol_setCol_ne _ _ _ _ h1]

/-- C7: the multiply merge of `update_csv.py` overwrites exactly its owned
columns (`mult_type`, `mult_param_set`, `mult_time_ms`, `exit_code`,
`timestamp`) with the stage's values and preserves the cell of every other
column; the metrics merge of `csv_helper.main` overwrites exactly
`bandwidth` and `block_density` and preserves every other column. -/
theorem merge_frame_property (row : Row) (impl ps ts : String) (t : ℚ) (st : ℤ)
    (m : SparseMatrix) (k k2 : String)
    (hk : k ∉ (["mult_type", "mult_param_set", "mult_time_ms", "exit_code",
      "timestamp"] : List String))
    (hk2 : k2 ∉ (["bandwidth", "block_density"] : List String)) :
    Row.getCol (update_csv row impl ps t st ts) k = Row.getCol row k
    ∧ Row.getCol (update_csv row impl ps t st ts) "mult_type" = some (.str impl)
    ∧ Row.getCol (update_csv row impl ps t st ts) "mult_param_set" = some (.str ps)
    ∧ Row.getCol (update_csv row impl ps t st ts) "mult_time_ms" = some (.num t)
    ∧ Row.getCol (update_csv row impl ps t st ts) "exit_code" = some (.num (st : ℚ))
    ∧ Row.getCol (update_csv row impl ps t st ts) "timestamp" = some (.str ts)
    ∧ Row.getCol (csvHelperMain m row) k2 = Row.getCol row k2
    ∧ Row.getCol (csvHelperMain m row) "bandwidth"
        = some (.num ((compute_bandwidth m : ℤ) : ℚ))
    ∧ Row.getCol (csvHelperMain m row) "block_density"
        = some (.json (densitiesObject m)) := by
  simp only [List.mem_cons, List.mem_singleton, not_or] at hk hk2
  obtain ⟨n1, n2, n3, n4, n5, -⟩ := hk
  obtain ⟨m1, m2, -⟩ := hk2
  refine ⟨?_, ?_, ?_, ?_, ?_, ?_, ?_, ?_, ?_⟩
  · unfold update_csv
    rw [Row.getCol_setCol_ne _ _ _ _ n5, Row.getCol_setCol_ne _ _ _ _ n4,
      Row.getCol_setCol_ne _ _ _ _ n3, Row.getCol_setCol_ne _ _ _ _ n2,
      Row.getCol_setCol_ne _ _ _ _ n1]
  · unfold update_csv
    rw [Row.getCol_setCol_ne _ _ _ _ (by decide), Row.getCol_setCol_ne _ _ _ _ (by decide),
      Row.getCol_setCol_ne _ _ _ _ (by decide), Row.getCol_setCol_ne _ _ _ _ (by decide)]
    exact Row.getCol_setCol_self _ _ _
  · unfold update_csv
    rw [Row.getCol_setCol_ne _ _ _ _ (by decide), Row.getCol_setCol_ne _ _ _ _ (by decide),
      Row.getCol_setCol_ne _ _ _ _ (by decide)]
    exact Row.getCol_setCol_self _ _ _
  · unfold update_csv
    rw [Row.getCol_setCol_ne _ _ _ _ (by decide), Row.getCol_setCol_ne _ _ _ _ (by decide)]
    exact Row.getCol_setCol_self _ _ _
  · unfold update_csv
    rw [Row.getCol_setCol_ne _ _ _ _ (by decide)]
    exact Row.getCol_setCol_self _ _ _
  · unfold update_csv
    exact Row.getCol_setCol_self _ _ _
  · exact getCol_csvHelperMain_other m row k2 m1 m2
  · unfold csvHelperMain
    rw [Row.getCol_setCol_ne _ _ _ _ (by decide)]
    exact Row.getCol_setCol_self _ _ _
  · unfold csvHelperMain
    exact Row.getCol_setCol_self _ _ _

theorem merge_frame_property_witness :
    ("matrix_name" ∉ (["mult_type", "mult_param_set", "mult_time_ms", "exit_code",
      "timestamp"] : List String))
    ∧ ("nnz" ∉ (["bandwidth", "block_density"] : List String))
    ∧ Row.getCol (update_csv [("matrix_name", CsvValue.str "m1")] "cucsrspmm" "default"
        5 0 "2025") "matrix_name" = some (CsvValue.str "m1")
    ∧ Row.getCol (csvHelperMain identity4 [("nnz", CsvValue.num 4)]) "nnz"
        = some (CsvValue.num 4) := by
  have h := merge_frame_property [("matrix_name", CsvValue.str "m1")] "cucsrspmm"
    "default" "2025" 5 0 identity4 "matrix_name" "nnz" (by decide) (by decide)
  refine ⟨by decide, by decide, ?_, ?_⟩
  · rw [h.1]; rfl
  · have h2 := merge_frame_property [("nnz", CsvValue.num 4)] "cucsrspmm"
      "default" "2025" 5 0 identity4 "matrix_name" "nnz" (by decide) (by decide)
    rw [h2.2.2.2.2.2.2.1]; rfl

/-- C10: after the metrics merge, `block_density` holds the JSON-encoded
object mapping exactly the block sizes 4, 8, 16, 32, 64 to their densities
and `bandwidth` holds a single integer-valued cell, under both the combined
script (`csv_helper.py`) and the GraphBLAS script
(`csv_helper_graphblas.py`). -/
theorem metrics_row_shape (m : SparseMatrix) (row : Row) :
    Row.getCol (csvHelperMain m row) "block_density"
      = some (.json (densitiesObject m))
    ∧ (densitiesObject m).map Prod.fst = [4, 8, 16, 32, 64]
    ∧ Row.getCol (csvHelperMain m row) "bandwidth"
        = some (.num ((compute_bandwidth m : ℤ) : ℚ))
    ∧ Row.getCol (csvHelperGraphblasMain m row) "block_density"
        = some (.json (densitiesObjectGraphblas m))
    ∧ (densitiesObjectGraphblas m).map Prod.fst = [4, 8, 16, 32, 64]
    ∧ Row.getCol (csvHelperGraphblasMain m row) "bandwidth"
        = some (.num ((compute_bandwidth_graphblas m : ℤ) : ℚ)) := by
  refine ⟨?_, rfl, ?_, ?_, rfl, ?_⟩
  · unfold csvHelperMain
    exact Row.getCol_setCol_self _ _ _
  · unfold csvHelperMain
    rw [Row.getCol_setCol_ne _ _ _ _ (by decide)]
    exact Row.getCol_setCol_self _ _ _
  · unfold csvHelperGraphblasMain
    exact Row.getCol_setCol_self _ _ _
  · unfold csvHelperGraphblasMain
    rw [Row.getCol_setCol_ne _ _ _ _ (by decide)]
    exact Row.getCol_setCol_self _ _ _

end ReorderingSurvey
namespace ReorderingSurvey

theorem replChar_semi : replChar ';' = ';' := by decide

theorem joinSep_head_eq : ∀ (x y A B C D : List Char),
    x ++ ';' :: A = y ++ ';' :: B →
    x.map replChar ++ '_' :: C = y.map replChar ++ '_' :: D →
    x = y := by
  intro x
  induction x with
  | nil =>
    intro y A B C D h1 h2
    cases y with
    | nil => rfl
    | cons b y' =>
      exfalso
      simp only [List.nil_append, List.cons_append, List.cons.injEq,
        List.map_cons, List.map_nil] at h1 h2
      have hb : b = ';' := h1.1.symm
      have hrb : replChar b = '_' := h2.1.symm
      rw [hb] at hrb
      exact absurd hrb (by decide)
  | cons a x' ih =>
    intro y A B C D h1 h2
    cases y with
    | nil =>
      exfalso
      simp only [List.nil_append, List.cons_append, List.cons.injEq,
        List.map_cons, List.map_nil] at h1 h2
      have ha : a = ';' := h1.1
      have hra : replChar a = '_' := h2.1
      rw [ha] at hra
      exact absurd hra (by decide)
    | cons b y' =>
      simp only [List.cons_append, List.cons.injEq, List.map_cons] at h1 h2
      rw [h1.1]
      rw [ih y' A B C D h1.2 h2.2]

theorem joinSep_pair_inj : ∀ (xs : List (List Char)), ∀ (ys : List (List Char)),
    xs ≠ [] → ys ≠ [] →
    joinSep ';' xs = joinSep ';' ys →
    joinSep '_' (xs.map (List.map replChar)) = joinSep '_' (ys.map (List.map replChar)) →
    xs = ys := by
  intro xs
  induction xs with
  | nil => intro ys hx _ _ _; exact absurd rfl hx
  | cons x xs' ih =>
    intro ys _ hy h1 h2
    cases ys with
    | nil => exact absurd rfl hy
    | cons y ys' =>
      cases xs' with
      | nil =>
        cases ys' with
        | nil =>
          simp only [joinSep] at h1
          rw [h1]
        | cons y2 t =>
          exfalso
          simp only [joinSep, List.map_cons] at h1 h2
          rw [h1, List.map_append, List.map_cons, replChar_semi] at h2
          have := List.append_cancel_left h2
          simp at this
      | cons x2 s =>
        cases ys' with
        | nil =>
          exfalso
          simp only [joinSep, List.map_cons] at h1 h2
          rw [← h1, List.map_append, List.map_cons, replChar_semi] at h2
          have := List.append_cancel_left h2
          simp at this
        | cons y2 t =>
          simp only [joinSep, List.map_cons] at h1 h2
          have hxy : x = y := joinSep_head_eq x y _ _ _ _ h1 h2
          subst hxy
          have h1' := List.append_cancel_left h1
          have h2' := List.append_cancel_left h2
          simp only [List.cons.injEq, true_and] at h1' h2'
          have := ih (y2 :: t) (by simp) (by simp) h1' (by
            simpa only [List.map_cons] using h2')
          rw [this]

theorem canonicalize_inj : ∀ (ps qs : List (List Char)),
    canonicalize ps = canonicalize qs → ps = qs := by
  intro ps qs h
  have h1 : joinSep ';' ps = joinSep ';' qs := congrArg Prod.fst h
  have h2 : (canonicalize ps).2 = (canonicalize qs).2 := congrArg Prod.snd h
  cases ps with
  | nil =>
    cases qs with
    | nil => rfl
    | cons q t =>
      exfalso
      simp only [canonicalize, if_pos rfl,
        if_neg (by simp : ¬ (q :: t = []))] at h2
      cases t with
      | nil =>
        simp only [joinSep] at h1
        subst h1
        simp only [joinSep, List.map_cons, List.map_nil] at h2
        exact absurd h2 (by decide)
      | cons q2 t' =>
        simp only [joinSep] at h1
        have hlen := congrArg List.length h1
        simp [List.length_append] at hlen
        omega
  | cons p s =>
    cases qs with
    | nil =>
      exfalso
      simp only [canonicalize, if_pos rfl,
        if_neg (by simp : ¬ (p :: s = []))] at h2
      cases s with
      | nil =>
        simp only [joinSep] at h1
        subst h1
        simp only [joinSep, List.map_cons, List.map_nil] at h2
        exact absurd h2 (by decide)
      | cons p2 s' =>
        simp only [joinSep] at h1
        have hlen := congrArg List.length h1
        simp [List.length_append] at hlen
    | cons q t =>
      refine joinSep_pair_inj (p :: s) (q :: t) (by simp) (by simp) h1 ?_
      simp only [canonicalize, if_neg (by simp : ¬ (p :: s = [])),
        if_neg (by simp : ¬ (q :: t = []))] at h2
      exact h2

end ReorderingSurvey
namespace ReorderingSurvey

/-- C6: parameter-set canonicalization is deterministic and injective over
ordered parameter lists; the empty list maps to the empty raw string and
the literal token `default`, and a non-empty list's token is the pairs with
`=` replaced by `-`, joined with `_` (raw: joined with `;`). -/
theorem canonicalize_spec (ps qs rs rs' : List (List Char))
    (h : canonicalize ps = canonicalize qs) (hdet : rs = rs') :
    ps = qs
    ∧ canonicalize rs = canonicalize rs'
    ∧ canonicalize ([] : List (List Char)) = ([], "default".toList)
    ∧ (rs ≠ [] → (canonicalize rs).2 = joinSep '_' (rs.map (List.map replChar)))
    ∧ (canonicalize rs).1 = joinSep ';' rs := by
  refine ⟨canonicalize_inj ps qs h, by rw [hdet], rfl, ?_, rfl⟩
  intro hne
  simp only [canonicalize]
  rw [if_neg hne]

theorem canonicalize_spec_witness :
    ([['a', '=', '1']] : List (List Char)) = [['a', '=', '1']]
    ∧ canonicalize [['a'], ['b']] = canonicalize [['a'], ['b']]
    ∧ canonicalize ([] : List (List Char)) = ([], "default".toList)
    ∧ (canonicalize [['a'], ['b']]).2
        = joinSep '_' (([['a'], ['b']] : List (List Char)).map (List.map replChar))
    ∧ (canonicalize [['a'], ['b']]).1 = joinSep ';' [['a'], ['b']] := by
  have h := canonicalize_spec [['a', '=', '1']] [['a', '=', '1']]
    [['a'], ['b']] [['a'], ['b']] rfl rfl
  exact ⟨h.1, h.2.1, h.2.2.1, h.2.2.2.1 (by simp), h.2.2.2.2⟩

/-- C9: the CPU-fallback-capable kernel `csrcusparse_multiply.py`, when the
GPU backend is unavailable or the GPU attempt fails, falls back to the CPU
implementation and, when the CPU multiply succeeds with a positive timing,
exits with code 0 and prints that positive timing as the `TIMING_MS`
marker. -/
theorem cpu_fallback_kernel (forceCpu : Bool) (gpu : GpuInfo)
    (gpuResult : Option ℚ × Bool) (t : ℚ)
    (hga : gpu.cusparse_available = false ∨ gpuResult.2 = false)
    (ht : 0 < t) :
    csrcusparseMain true forceCpu gpu gpuResult (some t, true) = (0, .reported t)
    ∧ 0 < t := by
  refine ⟨?_, ht⟩
  rcases hga with hg | hg
  · cases forceCpu <;> simp [csrcusparseMain, hg]
  · cases forceCpu
    · cases hgc : gpu.cusparse_available
      · simp [csrcusparseMain, hgc]
      · simp [csrcusparseMain, hgc, hg]
    · simp [csrcusparseMain, hg]

theorem cpu_fallback_kernel_witness :
    ((⟨false, false, false, false⟩ : GpuInfo).cusparse_available = false
      ∨ ((some (3 : ℚ), false) : Option ℚ × Bool).2 = false)
    ∧ (0 : ℚ) < 7
    ∧ csrcusparseMain true false ⟨false, false, false, false⟩ (some 3, false)
        (some 7, true) = (0, TimingMarker.reported 7) :=
  ⟨Or.inl rfl, by norm_num,
   (cpu_fallback_kernel false ⟨false, false, false, false⟩ (some 3, false) 7
     (Or.inl rfl) (by norm_num)).1⟩

end ReorderingSurvey
